import Mathlib

/-!
Verification of the YamlTranslater repository core modules against its
specification.  Python text values are modelled as lists of characters
(`Doc := List Char`), Python `float` as `ℚ`, Python dictionaries as
association lists, and fallible methods return `Except`.  Wall-clock values
(`time.time()`) and the fractional part used for jitter are passed as
explicit parameters.  File persistence (`_save_states` / `_save_progress`)
is I/O and is not part of the state transition being modelled; it does not
change the in-memory structures the claims speak about.
-/

/-! ## Text model: Python `str.splitlines` and `"\n".join` -/

/-- Documents and lines are modelled as lists of characters. -/
abbrev Doc := List Char

/-- The characters Python `str.splitlines` treats as line boundaries
(`\r` participates through the `\r\n` / `\r` cases of the scanner). -/
def isLineTermChar (c : Char) : Bool :=
  c = '\n' || c = '\r' || c = '\x0b' || c = '\x0c' ||
  c = '\x1c' || c = '\x1d' || c = '\x1e' || c = '\u0085' ||
  c = '\u2028' || c = '\u2029'

/-- Scanner for `str.splitlines`: `buf` is the line collected so far and
`afterCR` records that the previous character was a line-ending `\r`, so
that a directly following `\n` belongs to the same `\r\n` boundary and is
skipped.  A terminator emits the buffer (even empty); at the end of input
a non-empty buffer is emitted (a trailing terminator does not create a
final empty line). -/
def splitlinesGo : List Char → List Char → Bool → List (List Char)
  | [], buf, _ => if buf.isEmpty then [] else [buf]
  | c :: cs, buf, afterCR =>
    if afterCR && c == '\n' then splitlinesGo cs buf false
    else if c = '\r' then buf :: splitlinesGo cs [] true
    else if isLineTermChar c then buf :: splitlinesGo cs [] false
    else splitlinesGo cs (buf ++ [c]) false

/-- Model of Python `text.splitlines()`. -/
def splitlines (d : Doc) : List Doc := splitlinesGo d [] false

/-- Model of Python `"\n".join(lines)`. -/
def joinN : List Doc → Doc
  | [] => []
  | [l] => l
  | l :: l2 :: ls => l ++ '\n' :: joinN (l2 :: ls)

/-- Characters stripped by Python `str.strip()` / `str.lstrip()`
(`str.isspace` characters). -/
def isPyWSChar (c : Char) : Bool :=
  c = ' ' || c = '\t' || c = '\n' || c = '\r' || c = '\x0b' || c = '\x0c' ||
  c = '\x1c' || c = '\x1d' || c = '\x1e' || c = '\x1f' || c = '\u0085' ||
  c = '\u00a0' || c = '\u1680' ||
  (0x2000 ≤ c.toNat && c.toNat ≤ 0x200a) ||
  c = '\u2028' || c = '\u2029' || c = '\u202f' || c = '\u205f' || c = '\u3000'

/-- Model of `not line.strip()`: true iff every character is whitespace. -/
def isBlankLine (l : Doc) : Bool := l.all isPyWSChar

/-- Model of `ChunkManager._get_indent_level`:
`len(line) - len(line.lstrip())`, the number of leading whitespace chars. -/
def get_indent_level (l : Doc) : ℕ := (l.takeWhile isPyWSChar).length

/-- `lines[i]` for an index known to be in bounds (out of range gives `[]`). -/
def lineAt (lines : List Doc) (i : ℕ) : Doc := lines.getD i []

/-- Python slice `lines[s:e]`. -/
def sliceLines (lines : List Doc) (s e : ℕ) : List Doc := (lines.take e).drop s

/-! ## ChunkManager (`core/chunk_manager.py`) -/

/-- Model of the `ChunkInfo` dataclass. -/
structure ChunkInfo where
  index : ℕ
  start_line : ℕ
  end_line : ℕ
  content : Doc
  context : Option Doc
  level : ℕ
  is_complete : Bool
deriving DecidableEq

/-- Model of the `ChunkResult` pydantic model. -/
structure ChunkResult where
  index : ℕ
  content : Doc
  success : Bool
  error : Option String
deriving DecidableEq

/-- Model of the `ChunkError` exception (message plus `details`). -/
structure ChunkError where
  message : String
  details : Option String
deriving DecidableEq

/-- The scan of `_find_chunk_boundary`, with the number of remaining
positions made explicit: starting at `i`, return `i+1` at the first blank
line, or `i` at the first indentation decrease. -/
def boundaryScanGo (lines : List Doc) : ℕ → ℕ → Option ℕ
  | _, 0 => none
  | i, remaining + 1 =>
    if isBlankLine (lineAt lines i) then some (i + 1)
    else if 0 < i ∧ get_indent_level (lineAt lines i) < get_indent_level (lineAt lines (i - 1)) then
      some i
    else boundaryScanGo lines (i + 1) remaining

/-- The scan of `_find_chunk_boundary` over `i` in `[i, stop)`
(`for i in range(end, min(end + 10, len(lines)))`). -/
def boundaryScan (lines : List Doc) (i stop : ℕ) : Option ℕ :=
  boundaryScanGo lines i (stop - i)

/-- Model of `ChunkManager._find_chunk_boundary` (look-ahead of 10 lines). -/
def find_chunk_boundary (lines : List Doc) (e : ℕ) : ℕ :=
  if lines.length ≤ e then e
  else (boundaryScan lines e (min (e + 10) lines.length)).getD e

/-- Model of `ChunkManager._get_context` (two lines of context on each
side, `None` when empty). -/
def get_context (lines : List Doc) (s e total : ℕ) : Option Doc :=
  let pre := if 0 < s then sliceLines lines (s - 2) s else []
  let post := if e < total then sliceLines lines e (min total (e + 2)) else []
  let cl := pre ++ post
  if cl.isEmpty then none else some (joinN cl)

/-- The `while current_line < total_lines` loop of `split_text`, with a fuel
parameter bounding the number of iterations (with `chunk_size ≥ 1` the loop
advances every iteration, so `total_lines` fuel is enough; the Python loop
does not terminate for `chunk_size = 0`). -/
def splitLoop (lines : List Doc) (size : ℕ) : ℕ → ℕ → ℕ → List ChunkInfo
  | 0, _, _ => []
  | fuel + 1, idx, cur =>
    if cur < lines.length then
      let e := find_chunk_boundary lines (min (cur + size) lines.length)
      { index := idx, start_line := cur + 1, end_line := e,
        content := joinN (sliceLines lines cur e),
        context := get_context lines cur e lines.length,
        level := 0, is_complete := true } :: splitLoop lines size fuel (idx + 1) e
    else []

/-- Model of `ChunkManager.split_text`.  A document of at most `size` lines
is returned as a single chunk whose content is the raw text. -/
def split_text (size : ℕ) (text : Doc) : List ChunkInfo :=
  let lines := splitlines text
  if lines.length ≤ size then
    [{ index := 0, start_line := 1, end_line := lines.length, content := text,
       context := none, level := 0, is_complete := true }]
  else splitLoop lines size lines.length 0 0

/-- Stable insertion of `x` after all elements whose key is `≤ key x`. -/
def insertSorted {α : Type} (key : α → ℕ) (x : α) : List α → List α
  | [] => [x]
  | y :: ys => if key y ≤ key x then y :: insertSorted key x ys else x :: y :: ys

/-- Model of Python `sorted(l, key=...)` (a stable sort). -/
def sortByKey {α : Type} (key : α → ℕ) (l : List α) : List α :=
  l.foldr (insertSorted key) []

/-- Python slice assignment `l[a:b] = r` (non-negative indices, clamped). -/
def sliceAssign {α : Type} (l : List α) (a b : ℕ) (r : List α) : List α :=
  let s := min a l.length
  let e := max s (min b l.length)
  l.take s ++ r ++ l.drop e

/-- `f"{r.error}"` for the optional error of a `ChunkResult`. -/
def optErrStr : Option String → String
  | none => "None"
  | some s => s

/-- One line of the failed-chunks report: `f"Chunk {r.index}: {r.error}"`. -/
def failedChunkLine (r : ChunkResult) : String :=
  "Chunk " ++ toString r.index ++ ": " ++ optErrStr r.error

/-- Model of `ChunkManager.merge_results`: validates counts, sorts results
and chunks by index, rejects if any result failed (reporting all of them),
then rewrites each chunk's line range in the original text. -/
def merge_results (original_text : Doc) (results : List ChunkResult)
    (chunks : List ChunkInfo) : Except ChunkError Doc :=
  if results.length ≠ chunks.length then
    .error { message := "Results count does not match chunks count",
             details := some ("Results: " ++ toString results.length ++
                              ", Chunks: " ++ toString chunks.length) }
  else
    let sortedResults := sortByKey ChunkResult.index results
    let sortedChunks := sortByKey ChunkInfo.index chunks
    let failed := sortedResults.filter (fun r => !r.success)
    if !failed.isEmpty then
      .error { message := "Some chunks failed to process",
               details := some (String.intercalate "\n" (failed.map failedChunkLine)) }
    else
      let lines := splitlines original_text
      let merged := (sortedResults.zip sortedChunks).foldl
        (fun ls p => sliceAssign ls (p.2.start_line - 1) p.2.end_line (splitlines p.1.content))
        lines
      .ok (joinN merged)

/-- The identity processing of a chunk list: each `ChunkResult` succeeds
with content equal to the original chunk content. -/
def identityResults (chunks : List ChunkInfo) : List ChunkResult :=
  chunks.map (fun c => { index := c.index, content := c.content, success := true, error := none })

/-! ## Shared helpers: lowercase, substring test, association lists -/

/-- ASCII model of Python `str.lower()` on a message. -/
def lowerChar (c : Char) : Char :=
  if 'A' ≤ c ∧ c ≤ 'Z' then Char.ofNat (c.toNat + 32) else c

/-- Lowercase a string into its character list. -/
def lowerStr (s : String) : List Char := s.toList.map lowerChar

/-- Whether `needle` occurs at the start of `hay`. -/
def startsWithChars : List Char → List Char → Bool
  | [], _ => true
  | _ :: _, [] => false
  | a :: as, b :: bs => a = b && startsWithChars as bs

/-- Model of Python substring containment `needle in hay`. -/
def containsSub (needle : List Char) : List Char → Bool
  | [] => needle.isEmpty
  | c :: cs => startsWithChars needle (c :: cs) || containsSub needle cs

/-- Python `dict` lookup `m.get(k)` for a string-keyed association list. -/
def alistFind {α : Type} (m : List (String × α)) (k : String) : Option α :=
  (m.find? (fun p => p.1 == k)).map (·.2)

/-- Python `dict` assignment `m[k] = v` (replace if present, else append). -/
def alistInsert {α : Type} (m : List (String × α)) (k : String) (v : α) :
    List (String × α) :=
  if (m.find? (fun p => p.1 == k)).isSome then
    m.map (fun p => if p.1 == k then (k, v) else p)
  else m ++ [(k, v)]

/-- Python `m.pop(k, None)`: remove the key if present. -/
def alistPop {α : Type} (m : List (String × α)) (k : String) :
    List (String × α) :=
  m.filter (fun p => !(p.1 == k))

/-! ## RetryHandler (`core/retry_handler.py`) -/

namespace RH

/-- Model of `ErrorCategory` in `retry_handler.py`. -/
inductive ErrorCategory where
  | network | rate_limit | api | timeout | unknown
deriving DecidableEq

/-- Model of `RetryStrategy` (`none` is the "do not retry" strategy). -/
inductive RetryStrategy where
  | immediate | linear | exponential | none
deriving DecidableEq

/-- Model of the `ErrorInfo` dataclass. -/
structure ErrorInfo where
  category : ErrorCategory
  message : String
  details : Option String
  timestamp : ℚ
  retry_count : ℕ
deriving DecidableEq

/-- Model of the `RetryState` dataclass of `retry_handler.py`. -/
structure RetryState where
  task_id : String
  error_history : List ErrorInfo
  next_retry_time : ℚ
  strategy : RetryStrategy
  max_retries : ℕ
deriving DecidableEq

/-- What `_categorize_error` inspects about a Python exception: the three
`isinstance` tests and `str(error)`. -/
structure PyError where
  isRateLimitError : Bool
  isAPIError : Bool
  isTimeoutError : Bool
  message : String
deriving DecidableEq

/-- The configuration fields `RetryHandler` reads. -/
structure HandlerConfig where
  max_retries : ℕ
  base_delay : ℚ
deriving DecidableEq

/-- Model of `_init_error_patterns`: dicts preserve insertion order, so the
patterns are matched in this order. -/
def error_patterns : List (String × ErrorCategory) :=
  [("connection", .network), ("timeout", .timeout), ("network", .network),
   ("dns", .network), ("socket", .network), ("rate limit", .rate_limit),
   ("too many requests", .rate_limit), ("api", .api), ("invalid", .api),
   ("unauthorized", .api)]

/-- Model of `RetryHandler._categorize_error`: typed checks first
(`RateLimitError`, `APIError`, `TimeoutError`), then the first matching
keyword of the lowercased message, else `unknown`. -/
def categorize_error (e : PyError) : ErrorInfo :=
  if e.isRateLimitError then
    { category := .rate_limit, message := "API rate limit exceeded",
      details := some e.message, timestamp := 0, retry_count := 0 }
  else if e.isAPIError then
    { category := .api, message := "API error occurred",
      details := some e.message, timestamp := 0, retry_count := 0 }
  else if e.isTimeoutError then
    { category := .timeout, message := "Operation timed out",
      details := some e.message, timestamp := 0, retry_count := 0 }
  else
    match error_patterns.find? (fun pc => containsSub pc.1.toList (lowerStr e.message)) with
    | some pc => { category := pc.2, message := e.message, details := none,
                   timestamp := 0, retry_count := 0 }
    | none => { category := .unknown, message := e.message, details := none,
                timestamp := 0, retry_count := 0 }

/-- Model of `_update_retry_strategy` (returns the new strategy; no change
when the history is empty). -/
def update_retry_strategy (st : RetryState) : RetryStrategy :=
  match st.error_history.getLast? with
  | Option.none => st.strategy
  | some latest =>
    match latest.category with
    | .rate_limit => .exponential
    | .network => .linear
    | .api => if 2 < st.error_history.length then .exponential else .linear
    | .timeout => .linear
    | .unknown => .exponential

/-- Model of `RetryHandler._calculate_wait_time`.  The `none` strategy
returns `float('inf')` in the source; it is never assigned by
`_update_retry_strategy`, so that branch is unreachable on every path
`should_retry` takes (modelled as 0 since `ℚ` has no infinity). -/
def calculate_wait_time (base_delay : ℚ) (st : RetryState) : ℚ :=
  let retry_count := st.error_history.length
  match st.strategy with
  | .immediate => 0
  | .linear => base_delay * retry_count
  | .exponential => base_delay * 2 ^ (retry_count - 1)
  | .none => 0

/-- The retry-state dictionary of the handler. -/
abbrev RetryStates := List (String × RetryState)

/-- Model of `RetryHandler._get_or_create_state`: the existing state of
the task, or a fresh one with an empty history and the configured
`max_retries`. -/
def get_or_create_state (cfg : HandlerConfig) (m : RetryStates) (tid : String) :
    RetryState :=
  (alistFind m tid).getD
    { task_id := tid, error_history := [], next_retry_time := 0,
      strategy := .immediate, max_retries := cfg.max_retries }

/-- The body of `RetryHandler.should_retry` once `_get_or_create_state`
returned `st0`: appends the categorized error to the history, answers
`(False, 0)` when the history has reached `max_retries`, otherwise updates
the strategy, computes the wait and answers `(True, wait)`. -/
def shouldRetryCore (cfg : HandlerConfig) (m : RetryStates) (tid : String)
    (st0 : RetryState) (e : PyError) (now : ℚ) : RetryStates × Bool × ℚ :=
  let info : ErrorInfo := { categorize_error e with timestamp := now }
  let st1 : RetryState := { st0 with error_history := st0.error_history ++ [info] }
  if st1.max_retries ≤ st1.error_history.length then
    (alistInsert m tid st1, false, 0)
  else
    let st2 : RetryState := { st1 with strategy := update_retry_strategy st1 }
    let w := calculate_wait_time cfg.base_delay st2
    let st3 : RetryState := { st2 with next_retry_time := now + w }
    (alistInsert m tid st3, true, w)

/-- Model of `RetryHandler.should_retry`. -/
def should_retry (cfg : HandlerConfig) (m : RetryStates) (tid : String)
    (e : PyError) (now : ℚ) : RetryStates × Bool × ℚ :=
  shouldRetryCore cfg m tid (get_or_create_state cfg m tid) e now

/-- Model of `RetryHandler.get_retry_info`. -/
def get_retry_info (m : RetryStates) (tid : String) : Option RetryState :=
  alistFind m tid

/-- Model of `RetryHandler.clear_retry_info` (the in-memory part; the
subsequent `_save_states` is file I/O). -/
def clear_retry_info (m : RetryStates) (tid : String) : RetryStates :=
  alistPop m tid

/-- A sequence of `should_retry` calls for one task: returns the final
state dictionary and the list of `(bool, wait)` answers in call order. -/
def run_should_retry (cfg : HandlerConfig) (tid : String) :
    RetryStates → List (PyError × ℚ) → RetryStates × List (Bool × ℚ)
  | m, [] => (m, [])
  | m, c :: rest =>
    let r := should_retry cfg m tid c.1 c.2
    let rr := run_should_retry cfg tid r.1 rest
    (rr.1, r.2 :: rr.2)

end RH

/-! ## RetryManager (`core/retry_manager.py`) -/

namespace RM

/-- Model of `ErrorCategory` in `retry_manager.py`. -/
inductive ErrorCategory where
  | network | rate_limit | api | validation | timeout | unknown
deriving DecidableEq

/-- Model of the `RetryState` dataclass of `retry_manager.py`. -/
structure RetryState where
  task_id : String
  error_category : ErrorCategory
  attempt_count : ℕ
  last_attempt : ℚ
  next_attempt : ℚ
  error_message : String
  backoff_factor : ℚ
deriving DecidableEq

/-- The `RetryConfig` fields `RetryManager` reads (pydantic defaults:
3/5/3/2/3/2 retries, waits 1.0 / 0.1 / 300.0, jitter 0.1). -/
structure Config where
  max_network_retries : ℕ
  max_rate_limit_retries : ℕ
  max_api_retries : ℕ
  max_validation_retries : ℕ
  max_timeout_retries : ℕ
  max_unknown_retries : ℕ
  base_wait_time : ℚ
  min_wait_time : ℚ
  max_wait_time : ℚ
  jitter_factor : ℚ
deriving DecidableEq

/-- What `RetryManager._categorize_error` inspects about an exception:
`str(error)` and `type(error).__name__`. -/
structure PyErr where
  message : String
  typeName : String
deriving DecidableEq

/-- The `_error_patterns` dict, in insertion order. -/
def error_patterns : List (ErrorCategory × List String) :=
  [(.network, ["ConnectionError", "TimeoutError", "NetworkError"]),
   (.rate_limit, ["RateLimitError", "TooManyRequests", "429"]),
   (.api, ["APIError", "InvalidRequest", "AuthenticationError"]),
   (.validation, ["ValidationError", "InvalidFormat", "SchemaError"]),
   (.timeout, ["Timeout", "DeadlineExceeded"])]

/-- Model of `RetryManager._categorize_error`: the first category one of
whose lowercased patterns occurs in the lowercased message or type name. -/
def categorize_error (e : PyErr) : ErrorCategory :=
  match error_patterns.find? (fun cp => cp.2.any (fun p =>
      containsSub (lowerStr p) (lowerStr e.message) ||
      containsSub (lowerStr p) (lowerStr e.typeName))) with
  | some cp => cp.1
  | none => .unknown

/-- Model of `_get_max_retries`. -/
def get_max_retries (cfg : Config) : ErrorCategory → ℕ
  | .network => cfg.max_network_retries
  | .rate_limit => cfg.max_rate_limit_retries
  | .api => cfg.max_api_retries
  | .validation => cfg.max_validation_retries
  | .timeout => cfg.max_timeout_retries
  | .unknown => cfg.max_unknown_retries

/-- The per-category multiplier of `_calculate_wait_time`
(1.0 / 2.0 / 1.5 / 1.0 / 1.2 / 1.0). -/
def category_multiplier : ErrorCategory → ℚ
  | .network => 1
  | .rate_limit => 2
  | .api => 3 / 2
  | .validation => 1
  | .timeout => 6 / 5
  | .unknown => 1

/-- Model of `RetryManager._calculate_wait_time`.  `frac` stands for the
nondeterministic `time.time() % 1` of the jitter term; the result is
clamped to `[min_wait_time, max_wait_time]`. -/
def calculate_wait_time (cfg : Config) (st : RetryState) (frac : ℚ) : ℚ :=
  let wait0 := cfg.base_wait_time * st.backoff_factor ^ st.attempt_count *
    category_multiplier st.error_category
  let jitter := cfg.jitter_factor * wait0 * (1 / 2 - frac)
  let wait1 := wait0 + jitter
  max cfg.min_wait_time (min wait1 cfg.max_wait_time)

/-- Model of `_adjust_backoff_factor`. -/
def adjust_backoff_factor (st : RetryState) : ℚ :=
  if st.error_category = .rate_limit then min (st.backoff_factor * 2) 4
  else if st.error_category = .network then min (st.backoff_factor * (3 / 2)) 3
  else if 3 < st.attempt_count then min (st.backoff_factor * (6 / 5)) 2
  else st.backoff_factor

/-- The retry-state dictionary of the manager. -/
abbrev States := List (String × RetryState)

/-- The part of `RetryManager.should_retry` after the state was fetched or
created: the retry-count check, wait computation and state update. -/
def shouldRetryCore (cfg : Config) (m : States) (tid : String) (e : PyErr)
    (category : ErrorCategory) (st : RetryState) (now frac : ℚ) :
    States × Bool × ℚ :=
  if get_max_retries cfg category ≤ st.attempt_count then (m, false, 0)
  else
    let w := calculate_wait_time cfg st frac
    let stA : RetryState :=
      { st with attempt_count := st.attempt_count + 1,
                last_attempt := now, next_attempt := now + w,
                error_message := e.message }
    let stB : RetryState :=
      { stA with backoff_factor := adjust_backoff_factor stA }
    (alistInsert m tid stB, true, w)

/-- Model of `RetryManager.should_retry` (a fresh state is stored in the
dict before the retry-count check, exactly as in the source). -/
def should_retry (cfg : Config) (m : States) (tid : String) (e : PyErr)
    (now frac : ℚ) : States × Bool × ℚ :=
  let category := categorize_error e
  match alistFind m tid with
  | some st => shouldRetryCore cfg m tid e category st now frac
  | none =>
    let st : RetryState :=
      { task_id := tid, error_category := category,
        attempt_count := 0, last_attempt := 0, next_attempt := 0,
        error_message := e.message, backoff_factor := 1 }
    shouldRetryCore cfg (alistInsert m tid st) tid e category st now frac

/-- Model of `RetryManager.reset`: `self._states.pop(task_id, None)`. -/
def reset (m : States) (tid : String) : States := alistPop m tid

/-- Model of `RetryManager.get_state`. -/
def get_state (m : States) (tid : String) : Option RetryState := alistFind m tid

end RM

/-! ## ProgressManager (`core/progress_manager.py`) -/

namespace PM

/-- Model of `TaskStatus`. -/
inductive TaskStatus where
  | pending | running | paused | failed | success
deriving DecidableEq

/-- Model of the `FileProgress` dataclass. -/
structure FileProgress where
  path : String
  size : ℕ
  total_chunks : ℕ
  completed_chunks : ℕ
  tokens_used : ℕ
  start_time : ℚ
  last_update : ℚ
  status : TaskStatus
  error : Option String
deriving DecidableEq

/-- Model of the `SessionInfo` dataclass. -/
structure SessionInfo where
  start_time : ℚ
  last_update : ℚ
  total_files : ℕ
  completed_files : ℕ
  total_tokens : ℕ
  total_cost : ℚ
  elapsed_time : ℚ
deriving DecidableEq

/-- Model of the `ProgressError` exception (error strings abbreviated to
the inner message; the claims never inspect them). -/
structure ProgressError where
  message : String
deriving DecidableEq

/-- The in-memory state of a `ProgressManager`. -/
structure State where
  session : SessionInfo
  files : List (String × FileProgress)
deriving DecidableEq

/-- Model of `_calculate_cost`: `(tokens / 1000) * 0.002` dollars. -/
def calculate_cost (tokens : ℕ) : ℚ := ((tokens : ℚ) / 1000) * (2 / 1000)

/-- The state built by `__init__` (without a persisted file to resume). -/
def initState (now : ℚ) : State :=
  { session := { start_time := now, last_update := now, total_files := 0,
                 completed_files := 0, total_tokens := 0, total_cost := 0,
                 elapsed_time := 0 },
    files := [] }

/-- Model of `ProgressManager.add_file`. -/
def add_file (st : State) (path : String) (size total_chunks : ℕ) (now : ℚ) :
    Except ProgressError State :=
  if (alistFind st.files path).isSome then
    .error { message := "File already exists: " ++ path }
  else
    .ok { session := { st.session with total_files := st.session.total_files + 1 },
          files := st.files ++ [(path,
            { path := path, size := size, total_chunks := total_chunks,
              completed_chunks := 0, tokens_used := 0, start_time := now,
              last_update := now, status := .pending, error := none })] }

/-- Model of `ProgressManager.update_file_progress`: updates the file's
fields and, whenever the new status is terminal (`success`/`failed`),
increments `completed_files` and adds the tokens and cost to the session
(the source does this on every terminal update, without looking at the
previous status). -/
def update_file_progress (st : State) (path : String)
    (completed_chunks tokens_used : ℕ) (status : TaskStatus)
    (error : Option String) (now : ℚ) : Except ProgressError State :=
  match alistFind st.files path with
  | none => .error { message := "File not found: " ++ path }
  | some fp =>
    let fp2 : FileProgress :=
      { fp with completed_chunks := completed_chunks,
                tokens_used := tokens_used, last_update := now,
                status := status, error := error }
    let sess1 : SessionInfo :=
      if status = .success ∨ status = .failed then
        { st.session with
          completed_files := st.session.completed_files + 1,
          total_tokens := st.session.total_tokens + tokens_used,
          total_cost := st.session.total_cost + calculate_cost tokens_used }
      else st.session
    let sess2 : SessionInfo :=
      { sess1 with last_update := now,
                   elapsed_time := now - sess1.start_time }
    .ok { session := sess2, files := alistInsert st.files path fp2 }

/-- The claim-C4 scenario: register one file, then report the same
terminal `success` update twice. -/
def doubleTerminalRun : Except ProgressError State := do
  let s1 ← add_file (initState 0) "a.yml" 100 2 0
  let s2 ← update_file_progress s1 "a.yml" 2 10 .success none 1
  update_file_progress s2 "a.yml" 2 10 .success none 2

end PM

/-! ## ProgressRecoveryManager (`core/progress_recovery.py`) -/

namespace PR

/-- Model of the `SessionState` dataclass (the `failed_files` set is a
list of paths). -/
structure SessionState where
  session_id : String
  start_time : ℚ
  last_update : ℚ
  total_files : ℕ
  completed_files : ℕ
  failed_files : List String
  total_tokens : ℕ
  total_cost : ℚ
deriving DecidableEq

/-- Model of the `TaskState` dataclass. -/
structure TaskState where
  task_id : String
  file_path : String
  total_chunks : ℕ
  completed_chunks : ℕ
  failed_chunks : List ℕ
  start_time : ℚ
  last_update : ℚ
  is_completed : Bool
  error_message : Option String
deriving DecidableEq

/-- A persisted checkpoint file as `load_checkpoint` sees it, staged by
the order in which the loader mutates the manager.  `sessionParse` is the
result of `json.load` plus `SessionState(**data["session"])`: `none` when
either raises, and nothing has been assigned yet.  After a successful
session parse `self._session` is assigned; `failedFilesOk` records
whether the subsequent `set(data["session"]["failed_files"])` conversion
succeeds (its failure leaves the assigned session — with whatever value
the constructor stored for `failed_files` — and does not reach the task
loop).  `taskParses` lists the `data["tasks"]` entries in order: `some t`
for an entry that parses, `none` for the entry at which `TaskState(**…)`
or the `failed_chunks` conversion raises (a missing `"tasks"` key is a
first-entry `none`); entries before the first `none` have already been
stored in the task dictionary when the exception fires. -/
structure CheckpointFile where
  stem : String
  mtime : ℚ
  sessionParse : Option SessionState
  failedFilesOk : Bool
  taskParses : List (Option TaskState)
deriving DecidableEq

/-- The in-memory state a `ProgressRecoveryManager` holds after
construction. -/
structure MState where
  session : Option SessionState
  tasks : List (String × TaskState)
deriving DecidableEq

/-- The task-restoring loop of `load_checkpoint`
(`self._tasks[task.task_id] = task` entry by entry): stores entries into
the dictionary until the first malformed one; the boolean tells whether
the whole list was consumed without error. -/
def loadTasksGo : List (String × TaskState) → List (Option TaskState) →
    List (String × TaskState) × Bool
  | acc, [] => (acc, true)
  | acc, none :: _ => (acc, false)
  | acc, some t :: rest => loadTasksGo (alistInsert acc t.task_id t) rest

/-- Model of `load_checkpoint` as a transition on the manager state,
following the source's mutation order: raises (returns an error) when no
file has the session id, leaving the state untouched; assigns
`self._session` as soon as the session record parses; then converts the
failed-files set; then clears `self._tasks` and restores task records one
by one.  A failure after the session assignment is reported but leaves
the already-loaded session and task prefix in the state. -/
def load_checkpoint (fs : List CheckpointFile) (sid : String) (st : MState) :
    MState × Option String :=
  match fs.find? (fun f => f.stem == sid) with
  | none => (st, some ("Checkpoint not found: " ++ sid))
  | some f =>
    match f.sessionParse with
    | none => (st, some "Failed to load checkpoint")
    | some s =>
      if f.failedFilesOk then
        let r := loadTasksGo [] f.taskParses
        ({ session := some s, tasks := r.1 },
         if r.2 then none else some "Failed to load checkpoint")
      else
        ({ session := some s, tasks := st.tasks }, some "Failed to load checkpoint")

/-- Python `max(checkpoints, key=mtime)`: the first file whose
modification time no later file strictly exceeds. -/
def pickLatest (f : CheckpointFile) (rest : List CheckpointFile) :
    CheckpointFile :=
  rest.foldl (fun best x => if best.mtime < x.mtime then x else best) f

/-- The latest checkpoint of the directory, if any. -/
def latestCheckpoint : List CheckpointFile → Option CheckpointFile
  | [] => none
  | f :: rest => some (pickLatest f rest)

/-- Model of `_try_auto_resume`: no checkpoints means no resume; any
failure of `load_checkpoint` is caught and logged, never raised — but the
state mutations `load_checkpoint` performed before failing persist. -/
def try_auto_resume (fs : List CheckpointFile) (st : MState) : MState :=
  match latestCheckpoint fs with
  | none => st
  | some latest => (load_checkpoint fs latest.stem st).1

/-- Model of `ProgressRecoveryManager.__init__`: the state starts clean
(`session = None`, no tasks) and, with auto-resume on, `_try_auto_resume`
runs on it.  Construction is total: it never raises. -/
def recovery_init (auto_resume : Bool) (fs : List CheckpointFile) : MState :=
  if auto_resume then try_auto_resume fs { session := none, tasks := [] }
  else { session := none, tasks := [] }

end PR

/-- Concrete fixture for the claim C3 witness: two allowed retries. -/
def c3cfg : RH.HandlerConfig := { max_retries := 2, base_delay := 1 }

/-- Concrete fixture: a plain network error with no typed signal. -/
def c3err : RH.PyError :=
  { isRateLimitError := false, isAPIError := false, isTimeoutError := false,
    message := "connection lost" }

/-- Concrete fixture: two consecutive same-category failures. -/
def c3calls : List (RH.PyError × ℚ) := [(c3err, 0), (c3err, 1)]

/-! ## Helper lemmas -/

/-- Popping an absent key from a dict is a no-op. -/
theorem alistPop_of_absent {α : Type} (m : List (String × α)) (k : String)
    (h : alistFind m k = none) : alistPop m k = m := by
  induction m with
  | nil => rfl
  | cons p rest ih =>
    by_cases hp : p.1 == k
    · exfalso
      simp [alistFind, List.find?, hp] at h
    · have hrest : alistFind rest k = none := by
        simpa [alistFind, List.find?, hp] using h
      simp [alistPop, List.filter, hp] at ih ⊢
      exact ih hrest

/-- Membership is preserved by stable insertion. -/
theorem mem_insertSorted {α : Type} (key : α → ℕ) (x y : α) (l : List α) :
    y ∈ insertSorted key x l ↔ y = x ∨ y ∈ l := by
  induction l with
  | nil => simp [insertSorted]
  | cons a l ih =>
    by_cases h : key a ≤ key x
    · simp only [insertSorted, if_pos h, List.mem_cons, ih]
      tauto
    · simp only [insertSorted, if_neg h, List.mem_cons]

/-- Sorting by key preserves membership. -/
theorem mem_sortByKey {α : Type} (key : α → ℕ) (y : α) (l : List α) :
    y ∈ sortByKey key l ↔ y ∈ l := by
  induction l with
  | nil => simp [sortByKey]
  | cons a l ih =>
    show y ∈ insertSorted key a (sortByKey key l) ↔ _
    rw [mem_insertSorted]
    simp only [ih, List.mem_cons]

/-- A list whose keys are strictly increasing is left unchanged by the
stable sort. -/
theorem sortByKey_eq_self {α : Type} (key : α → ℕ) (l : List α)
    (h : l.Pairwise (fun a b => key a < key b)) : sortByKey key l = l := by
  induction l with
  | nil => rfl
  | cons a l ih =>
    rw [List.pairwise_cons] at h
    show insertSorted key a (sortByKey key l) = a :: l
    rw [ih h.2]
    cases l with
    | nil => rfl
    | cons b l2 =>
      have hab : ¬ key b ≤ key a := not_le.mpr (h.1 b (List.mem_cons_self b l2))
      simp [insertSorted, hab]

/-! ## Claim C4 -/

/-- Claim C4 (code bug evidence): after registering one file, two
`update_file_progress` calls with the same terminal status `success`
leave the session with `completed_files = 2` and `total_tokens = 20`,
i.e. the file is double-counted, not counted exactly once. -/
theorem update_file_progress_double_counts :
    (PM.doubleTerminalRun.map
      (fun s => (s.session.completed_files, s.session.total_tokens))).toOption =
    some (2, 20) := by
  decide

/-! ## Claim C5 -/

/-- Every positive answer of `shouldRetryCore` carries a clamped wait. -/
theorem shouldRetryCore_wait_bounds (cfg : RM.Config) (m : RM.States)
    (tid : String) (e : RM.PyErr) (cat : RM.ErrorCategory) (st : RM.RetryState)
    (now frac : ℚ) (hmm : cfg.min_wait_time ≤ cfg.max_wait_time)
    (hb : (RM.shouldRetryCore cfg m tid e cat st now frac).2.1 = true) :
    cfg.min_wait_time ≤ (RM.shouldRetryCore cfg m tid e cat st now frac).2.2 ∧
    (RM.shouldRetryCore cfg m tid e cat st now frac).2.2 ≤ cfg.max_wait_time := by
  unfold RM.shouldRetryCore at hb ⊢
  by_cases hc : RM.get_max_retries cfg cat ≤ st.attempt_count
  · rw [if_pos hc] at hb
    simp at hb
  · rw [if_neg hc] at hb ⊢
    exact ⟨le_max_left _ _, max_le hmm (min_le_right _ _)⟩

/-- Claim C5: whenever `RetryManager.should_retry` answers
`(True, wait)`, the wait lies in `[min_wait_time, max_wait_time]` (for any
state of the task, any error, any clock value and any jitter draw),
provided the configured interval is non-degenerate. -/
theorem should_retry_wait_within_bounds (cfg : RM.Config) (m : RM.States)
    (tid : String) (e : RM.PyErr) (now frac : ℚ)
    (hmm : cfg.min_wait_time ≤ cfg.max_wait_time)
    (hb : (RM.should_retry cfg m tid e now frac).2.1 = true) :
    cfg.min_wait_time ≤ (RM.should_retry cfg m tid e now frac).2.2 ∧
    (RM.should_retry cfg m tid e now frac).2.2 ≤ cfg.max_wait_time := by
  unfold RM.should_retry at hb ⊢
  cases halist : alistFind m tid with
  | some st =>
    rw [halist] at hb
    exact shouldRetryCore_wait_bounds cfg m tid e (RM.categorize_error e) st
      now frac hmm hb
  | none =>
    rw [halist] at hb
    exact shouldRetryCore_wait_bounds cfg _ tid e (RM.categorize_error e) _
      now frac hmm hb

/-- Witness for claim C5 at the default configuration, a fresh task and a
concrete clock. -/
theorem should_retry_wait_within_bounds_witness :
    (1 : ℚ) / 10 ≤ (RM.should_retry ⟨3, 5, 3, 2, 3, 2, 1, 1 / 10, 300, 1 / 10⟩
      [] "task-1" ⟨"boom", "ValueError"⟩ 5 (1 / 4)).2.2 ∧
    (RM.should_retry ⟨3, 5, 3, 2, 3, 2, 1, 1 / 10, 300, 1 / 10⟩
      [] "task-1" ⟨"boom", "ValueError"⟩ 5 (1 / 4)).2.2 ≤ 300 :=
  should_retry_wait_within_bounds _ [] "task-1" ⟨"boom", "ValueError"⟩ 5 (1 / 4)
    (by norm_num) (by decide)

/-! ## Claim C8 -/

/-- Claim C8: with no typed signal, the message
`"Connection refused: timeout after 30s"` categorizes as `network`
(`"connection"` precedes `"timeout"` in the pattern dict of
`RetryHandler._init_error_patterns`), and a message matching no pattern
categorizes as `unknown`. -/
theorem categorize_error_precedence :
    (RH.categorize_error
      { isRateLimitError := false, isAPIError := false, isTimeoutError := false,
        message := "Connection refused: timeout after 30s" }).category =
      RH.ErrorCategory.network ∧
    ∀ e : RH.PyError, e.isRateLimitError = false → e.isAPIError = false →
      e.isTimeoutError = false →
      (∀ pc ∈ RH.error_patterns, containsSub pc.1.toList (lowerStr e.message) = false) →
      (RH.categorize_error e).category = RH.ErrorCategory.unknown := by
  constructor
  · decide
  · intro e h1 h2 h3 h4
    have hfind : RH.error_patterns.find?
        (fun pc => containsSub pc.1.data (lowerStr e.message)) = none := by
      rw [List.find?_eq_none]
      intro pc hpc
      simp only [Bool.not_eq_true]
      exact h4 pc hpc
    simp [RH.categorize_error, h1, h2, h3, hfind]

/-- Witness for the general part of the claim C8 theorem at a concrete
keyword-free message. -/
theorem categorize_error_precedence_witness :
    (RH.categorize_error
      { isRateLimitError := false, isAPIError := false, isTimeoutError := false,
        message := "zzz" }).category = RH.ErrorCategory.unknown :=
  categorize_error_precedence.2
    { isRateLimitError := false, isAPIError := false, isTimeoutError := false,
      message := "zzz" } rfl rfl rfl (by decide)

/-! ## Claim C10 -/

/-- Claim C10: clearing retry state for a task that has none is a no-op
(and, the functions being total, cannot raise): `RetryManager.reset` and
`RetryHandler.clear_retry_info` leave the state dictionary unchanged on
unknown task ids. -/
theorem reset_unknown_task_noop (m : RM.States) (m2 : RH.RetryStates)
    (tid tid2 : String) (h : RM.get_state m tid = none)
    (h2 : RH.get_retry_info m2 tid2 = none) :
    RM.reset m tid = m ∧ RH.clear_retry_info m2 tid2 = m2 :=
  ⟨alistPop_of_absent m tid h, alistPop_of_absent m2 tid2 h2⟩

/-- Witness for claim C10 on concrete dictionaries not holding the task. -/
theorem reset_unknown_task_noop_witness :
    RM.reset [("a", { task_id := "a", error_category := .network,
                      attempt_count := 1, last_attempt := 0, next_attempt := 0,
                      error_message := "x", backoff_factor := 1 })] "b" =
      [("a", { task_id := "a", error_category := .network,
                attempt_count := 1, last_attempt := 0, next_attempt := 0,
                error_message := "x", backoff_factor := 1 })] ∧
    RH.clear_retry_info [] "b" = [] :=
  reset_unknown_task_noop _ [] "b" "b" (by decide) rfl

/-! ## Claim C6 -/

/-- Claim C6 counterexample: equal counts but a result index (5) matching
no chunk index (0); `merge_results` does not fail — it pairs the result
with the chunk positionally and returns the rewritten text. -/
theorem merge_results_index_mismatch_succeeds :
    merge_results "a".toList
      [{ index := 5, content := "x".toList, success := true, error := none }]
      [{ index := 0, start_line := 1, end_line := 1, content := "a".toList,
         context := none, level := 0, is_complete := true }] =
      Except.ok "x".toList := by
  rfl

/-- Claim C6 as amended: `merge_results` fails with the structural
count-mismatch `ChunkError` (producing no output) exactly when
`|results| ≠ |chunks|`; result indices are never validated against chunk
indices. -/
theorem merge_results_count_mismatch_fails (orig : Doc)
    (results : List ChunkResult) (chunks : List ChunkInfo)
    (h : results.length ≠ chunks.length) :
    merge_results orig results chunks =
      Except.error { message := "Results count does not match chunks count",
                     details := some ("Results: " ++ toString results.length ++
                       ", Chunks: " ++ toString chunks.length) } := by
  unfold merge_results
  rw [if_pos h]

/-- Witness for the amended claim C6 theorem on one result and no chunks. -/
theorem merge_results_count_mismatch_fails_witness :
    merge_results "a".toList
      [{ index := 0, content := [], success := true, error := none }] [] =
      Except.error { message := "Results count does not match chunks count",
                     details := some "Results: 1, Chunks: 0" } :=
  merge_results_count_mismatch_fails "a".toList _ [] (by decide)

/-! ## Claim C7 -/

/-- Claim C7 counterexample: a results list containing a failed result
(index 0, error `"boom"`) merged against a chunk list of different length
fails with the count-mismatch error, whose text does not mention the
failing result's error at all. -/
theorem merge_results_failure_report_lost :
    merge_results "a".toList
      [{ index := 0, content := [], success := false, error := some "boom" }]
      [] =
      Except.error { message := "Results count does not match chunks count",
                     details := some "Results: 1, Chunks: 0" } ∧
    containsSub "boom".toList "Results: 1, Chunks: 0".toList = false ∧
    containsSub "Chunk 0".toList "Results: 1, Chunks: 0".toList = false := by
  refine ⟨rfl, by decide, by decide⟩

/-- Claim C7 as amended: when the counts agree and some result has
`success = false`, `merge_results` fails with the `ChunkError` whose
details line up every failing result (index and error), not only the
first. -/
theorem merge_results_reports_all_failures (orig : Doc)
    (results : List ChunkResult) (chunks : List ChunkInfo)
    (hlen : results.length = chunks.length)
    (hf : ∃ r ∈ results, r.success = false) :
    ∃ failed : List ChunkResult,
      merge_results orig results chunks =
        Except.error { message := "Some chunks failed to process",
                       details := some (String.intercalate "\n" (failed.map failedChunkLine)) } ∧
      (∀ r ∈ results, r.success = false → r ∈ failed) ∧
      (∀ r ∈ failed, r.success = false ∧ r ∈ results) := by
  obtain ⟨r0, hr0mem, hr0f⟩ := hf
  refine ⟨(sortByKey ChunkResult.index results).filter (fun r => !r.success),
    ?_, ?_, ?_⟩
  · unfold merge_results
    rw [if_neg (by simp [hlen])]
    have hne : (sortByKey ChunkResult.index results).filter
        (fun r => !r.success) ≠ [] := by
      intro hempty
      have : r0 ∈ (sortByKey ChunkResult.index results).filter
          (fun r => !r.success) := by
        rw [List.mem_filter]
        exact ⟨(mem_sortByKey _ _ _).mpr hr0mem, by simp [hr0f]⟩
      rw [hempty] at this
      exact absurd this (List.not_mem_nil r0)
    have hb : ((sortByKey ChunkResult.index results).filter
        (fun r => !r.success)).isEmpty = false := by
      cases hc : (sortByKey ChunkResult.index results).filter
          (fun r => !r.success) with
      | nil => exact absurd hc hne
      | cons a l => rfl
    simp only [hb, Bool.not_false, if_pos]
  · intro r hr hrf
    rw [List.mem_filter]
    exact ⟨(mem_sortByKey _ _ _).mpr hr, by simp [hrf]⟩
  · intro r hr
    rw [List.mem_filter] at hr
    refine ⟨by simpa using hr.2, (mem_sortByKey _ _ _).mp hr.1⟩

/-- Witness for the amended claim C7 theorem: two failing results, both
reported. -/
theorem merge_results_reports_all_failures_witness :
    ∃ failed : List ChunkResult,
      merge_results "a\nb".toList
        [{ index := 0, content := "a".toList, success := false, error := some "e0" },
         { index := 1, content := "b".toList, success := false, error := none }]
        [{ index := 0, start_line := 1, end_line := 1, content := "a".toList,
           context := none, level := 0, is_complete := true },
         { index := 1, start_line := 2, end_line := 2, content := "b".toList,
           context := none, level := 0, is_complete := true }] =
        Except.error { message := "Some chunks failed to process",
                       details := some (String.intercalate "\n" (failed.map failedChunkLine)) } ∧
      (∀ r ∈ [({ index := 0, content := "a".toList, success := false,
                 error := some "e0" } : ChunkResult),
              { index := 1, content := "b".toList, success := false, error := none }],
        r.success = false → r ∈ failed) ∧
      (∀ r ∈ failed, r.success = false ∧
        r ∈ [({ index := 0, content := "a".toList, success := false,
                error := some "e0" } : ChunkResult),
             { index := 1, content := "b".toList, success := false, error := none }]) :=
  merge_results_reports_all_failures "a\nb".toList _ _ (by decide)
    ⟨{ index := 0, content := "a".toList, success := false, error := some "e0" },
     by decide, rfl⟩

/-! ## Claim C9 -/

/-- One step of the `max`-by-mtime fold. -/
theorem pickLatest_cons (f x : PR.CheckpointFile) (rest : List PR.CheckpointFile) :
    PR.pickLatest f (x :: rest) =
      PR.pickLatest (if f.mtime < x.mtime then x else f) rest := rfl

/-- The fold of `pickLatest` returns its seed or a member of the list. -/
theorem pickLatest_mem_aux (rest : List PR.CheckpointFile) :
    ∀ f : PR.CheckpointFile, PR.pickLatest f rest = f ∨ PR.pickLatest f rest ∈ rest := by
  induction rest with
  | nil => intro f; exact Or.inl rfl
  | cons x rest ih =>
    intro f
    rw [pickLatest_cons]
    by_cases hfx : f.mtime < x.mtime
    · rw [if_pos hfx]
      rcases ih x with h | h
      · exact Or.inr (by rw [h]; exact List.mem_cons_self x rest)
      · exact Or.inr (List.mem_cons_of_mem x h)
    · rw [if_neg hfx]
      rcases ih f with h | h
      · exact Or.inl h
      · exact Or.inr (List.mem_cons_of_mem x h)

/-- No member of the list has a later mtime than the fold's pick. -/
theorem pickLatest_le_aux (rest : List PR.CheckpointFile) :
    ∀ f : PR.CheckpointFile, f.mtime ≤ (PR.pickLatest f rest).mtime ∧
      ∀ g ∈ rest, g.mtime ≤ (PR.pickLatest f rest).mtime := by
  induction rest with
  | nil => intro f; exact ⟨le_refl _, by intro g hg; exact absurd hg (List.not_mem_nil g)⟩
  | cons x rest ih =>
    intro f
    rw [pickLatest_cons]
    by_cases hfx : f.mtime < x.mtime
    · rw [if_pos hfx]
      refine ⟨le_trans (le_of_lt hfx) (ih x).1, ?_⟩
      intro g hg
      rcases List.mem_cons.mp hg with hgx | hgr
      · rw [hgx]; exact (ih x).1
      · exact (ih x).2 g hgr
    · rw [if_neg hfx]
      refine ⟨(ih f).1, ?_⟩
      intro g hg
      rcases List.mem_cons.mp hg with hgx | hgr
      · rw [hgx]; exact le_trans (not_lt.mp hfx) (ih f).1
      · exact (ih f).2 g hgr

/-- With pairwise-distinct stems, `find?` by a member's stem returns that
member. -/
theorem find_by_stem_of_nodup (fs : List PR.CheckpointFile)
    (hnd : (fs.map PR.CheckpointFile.stem).Nodup) (x : PR.CheckpointFile)
    (hx : x ∈ fs) : fs.find? (fun f => f.stem == x.stem) = some x := by
  induction fs with
  | nil => exact absurd hx (List.not_mem_nil x)
  | cons y fs ih =>
    rw [List.map_cons, List.nodup_cons] at hnd
    rcases List.mem_cons.mp hx with hxy | hxf
    · subst hxy
      simp [List.find?]
    · by_cases hys : y.stem == x.stem
      · exfalso
        apply hnd.1
        rw [show y.stem = x.stem from by simpa using hys]
        exact List.mem_map.mpr ⟨x, hxf, rfl⟩
      · simp only [List.find?, hys]
        exact ih hnd.2 hxf

/-- Restoring a list of well-formed task records stores every one and
reports success. -/
theorem loadTasksGo_map_some (ts : List PR.TaskState) :
    ∀ acc, PR.loadTasksGo acc (ts.map some) =
      (ts.foldl (fun acc t => alistInsert acc t.task_id t) acc, true) := by
  induction ts with
  | nil => intro acc; rfl
  | cons t ts ih => intro acc; exact ih (alistInsert acc t.task_id t)

/-- Claim C9 as amended: construction with auto-resume never raises; on
an empty state directory, or when the latest checkpoint's session record
fails to parse, it ends with a clean session.  The checkpoint selected is
the one with the most recent modification time.  Once its session record
parses it is installed as the active session even if the rest of the
checkpoint is malformed: a later failure is caught but leaves the loaded
session and the prefix of task records stored before the failure; when
the whole checkpoint is well-formed, the session — failed-files set
included — and all its task records are loaded. -/
theorem recovery_auto_resume (fs : List PR.CheckpointFile)
    (hnd : (fs.map PR.CheckpointFile.stem).Nodup) :
    PR.recovery_init true [] = { session := none, tasks := [] } ∧
    ∀ f rest, fs = f :: rest →
      PR.pickLatest f rest ∈ fs ∧
      (∀ g ∈ fs, g.mtime ≤ (PR.pickLatest f rest).mtime) ∧
      ((PR.pickLatest f rest).sessionParse = none →
        PR.recovery_init true fs = { session := none, tasks := [] }) ∧
      (∀ s, (PR.pickLatest f rest).sessionParse = some s →
        (PR.pickLatest f rest).failedFilesOk = false →
        PR.recovery_init true fs = { session := some s, tasks := [] }) ∧
      (∀ s, (PR.pickLatest f rest).sessionParse = some s →
        (PR.pickLatest f rest).failedFilesOk = true →
        PR.recovery_init true fs =
          { session := some s,
            tasks := (PR.loadTasksGo [] (PR.pickLatest f rest).taskParses).1 }) ∧
      (∀ s (ts : List PR.TaskState), (PR.pickLatest f rest).sessionParse = some s →
        (PR.pickLatest f rest).failedFilesOk = true →
        (PR.pickLatest f rest).taskParses = ts.map some →
        PR.recovery_init true fs =
          { session := some s,
            tasks := ts.foldl (fun acc t => alistInsert acc t.task_id t) [] }) := by
  refine ⟨rfl, ?_⟩
  intro f rest hfs
  subst hfs
  have hmem : PR.pickLatest f rest ∈ f :: rest := by
    rcases pickLatest_mem_aux rest f with h | h
    · rw [h]; exact List.mem_cons_self f rest
    · exact List.mem_cons_of_mem f h
  have hfind : (f :: rest).find?
      (fun g => g.stem == (PR.pickLatest f rest).stem) = some (PR.pickLatest f rest) :=
    find_by_stem_of_nodup (f :: rest) hnd (PR.pickLatest f rest) hmem
  refine ⟨hmem, ?_, ?_, ?_, ?_, ?_⟩
  · intro g hg
    rcases List.mem_cons.mp hg with hgf | hgr
    · rw [hgf]; exact (pickLatest_le_aux rest f).1
    · exact (pickLatest_le_aux rest f).2 g hgr
  · intro hparse
    simp [PR.recovery_init, PR.try_auto_resume, PR.latestCheckpoint,
      PR.load_checkpoint, hfind, hparse]
  · intro s hparse hff
    simp [PR.recovery_init, PR.try_auto_resume, PR.latestCheckpoint,
      PR.load_checkpoint, hfind, hparse, hff]
  · intro s hparse hff
    simp [PR.recovery_init, PR.try_auto_resume, PR.latestCheckpoint,
      PR.load_checkpoint, hfind, hparse, hff]
  · intro s ts hparse hff htasks
    simp [PR.recovery_init, PR.try_auto_resume, PR.latestCheckpoint,
      PR.load_checkpoint, hfind, hparse, hff, htasks,
      loadTasksGo_map_some ts []]

/-- Claim C9 counterexample: a single checkpoint whose session record
parses but whose first task record is malformed is corrupt — loading it
reports a failure — yet construction ends with that session installed as
the active one, not with a clean session. -/
theorem recovery_auto_resume_cex :
    (PR.load_checkpoint
      [⟨"100", 100, some ⟨"100", 0, 1, 1, 0, ["f.yml"], 5, 0⟩, true, [none]⟩]
      "100" ⟨none, []⟩).2 = some "Failed to load checkpoint" ∧
    PR.recovery_init true
      [⟨"100", 100, some ⟨"100", 0, 1, 1, 0, ["f.yml"], 5, 0⟩, true, [none]⟩] =
      ⟨some ⟨"100", 0, 1, 1, 0, ["f.yml"], 5, 0⟩, []⟩ ∧
    (⟨some ⟨"100", 0, 1, 1, 0, ["f.yml"], 5, 0⟩, []⟩ : PR.MState) ≠
      ⟨none, []⟩ := by
  refine ⟨by decide, by decide, by decide⟩

/-- Witness for the amended claim C9 on two checkpoints, the later of
which is fully well-formed with one task record. -/
theorem recovery_auto_resume_witness :
    PR.recovery_init true
      [⟨"100", 100, none, true, []⟩,
       ⟨"200", 200, some ⟨"200", 0, 1, 1, 0, ["f.yml"], 5, 0⟩, true,
        [some ⟨"t1", "f.yml", 2, 1, [0], 0, 1, false, none⟩]⟩] =
      ⟨some ⟨"200", 0, 1, 1, 0, ["f.yml"], 5, 0⟩,
       [("t1", ⟨"t1", "f.yml", 2, 1, [0], 0, 1, false, none⟩)]⟩ := by
  have h := ((recovery_auto_resume
    [⟨"100", 100, none, true, []⟩,
     ⟨"200", 200, some ⟨"200", 0, 1, 1, 0, ["f.yml"], 5, 0⟩, true,
      [some ⟨"t1", "f.yml", 2, 1, [0], 0, 1, false, none⟩]⟩]
    (by decide)).2 _ _ rfl).2.2.2.2.2 ⟨"200", 0, 1, 1, 0, ["f.yml"], 5, 0⟩
    [⟨"t1", "f.yml", 2, 1, [0], 0, 1, false, none⟩]
    (by decide) (by decide) (by decide)
  exact h.trans (by decide)

/-! ## Claim C3 -/

/-- Looking a key up right after inserting it yields the inserted value. -/
theorem alistFind_insert {α : Type} (m : List (String × α)) (k : String) (v : α) :
    alistFind (alistInsert m k v) k = some v := by
  have hmap : ∀ m2 : List (String × α), (m2.find? (fun p => p.1 == k)).isSome = true →
      ((m2.map (fun p => if p.1 == k then (k, v) else p)).find?
        (fun p => p.1 == k)) = some (k, v) := by
    intro m2 h
    induction m2 with
    | nil => simp [List.find?] at h
    | cons p rest ih =>
      by_cases hp : p.1 == k
      · simp [List.find?, hp]
      · rw [List.find?_cons_of_neg _ (by simpa using hp)] at h
        rw [List.map_cons, if_neg hp, List.find?_cons_of_neg _ (by simpa using hp)]
        exact ih h
  have happ : ∀ m2 : List (String × α), m2.find? (fun p => p.1 == k) = none →
      ((m2 ++ [(k, v)]).find? (fun p => p.1 == k)) = some (k, v) := by
    intro m2 h
    induction m2 with
    | nil => simp [List.find?]
    | cons p rest ih =>
      by_cases hp : p.1 == k
      · rw [List.find?_cons_of_pos _ (by simpa using hp)] at h
        exact absurd h (by simp)
      · rw [List.find?_cons_of_neg _ (by simpa using hp)] at h
        rw [List.cons_append, List.find?_cons_of_neg _ (by simpa using hp)]
        exact ih h
  unfold alistInsert
  by_cases h : (m.find? (fun p => p.1 == k)).isSome
  · rw [if_pos h]
    unfold alistFind
    rw [hmap m h]
    rfl
  · rw [if_neg h]
    unfold alistFind
    rw [happ m (Option.not_isSome_iff_eq_none.mp h)]
    rfl

/-- Looking a key up right after popping it yields nothing. -/
theorem alistFind_pop {α : Type} (m : List (String × α)) (k : String) :
    alistFind (alistPop m k) k = none := by
  induction m with
  | nil => rfl
  | cons p rest ih =>
    by_cases hp : p.1 == k
    · show alistFind (List.filter _ (p :: rest)) k = none
      rw [List.filter_cons_of_neg (by simp [hp])]
      exact ih
    · show alistFind (List.filter _ (p :: rest)) k = none
      rw [List.filter_cons_of_pos (by simp [hp])]
      unfold alistFind
      rw [List.find?_cons_of_neg _ (by simpa using hp)]
      exact ih

/-- A strategy freshly assigned from a non-empty history is linear or
exponential — never `immediate` (whose wait is 0) or `none`. -/
theorem update_retry_strategy_of_concat (st : RH.RetryState)
    (rest : List RH.ErrorInfo) (info : RH.ErrorInfo)
    (h : st.error_history = rest ++ [info]) :
    RH.update_retry_strategy st = RH.RetryStrategy.linear ∨
    RH.update_retry_strategy st = RH.RetryStrategy.exponential := by
  obtain ⟨cat, msg, det, ts, rc⟩ := info
  unfold RH.update_retry_strategy
  rw [h, List.getLast?_concat]
  cases cat with
  | network => exact Or.inl rfl
  | rate_limit => exact Or.inr rfl
  | timeout => exact Or.inl rfl
  | unknown => exact Or.inr rfl
  | api =>
    dsimp only
    split
    · exact Or.inr rfl
    · exact Or.inl rfl

/-- One handler call with a history of length `j`: the history grows to
`j + 1`; the call answers `(False, 0)` as soon as `j + 1` reaches
`max_retries` and `(True, wait)` with `wait > 0` before that. -/
theorem shouldRetryCore_step (cfg : RH.HandlerConfig) (m : RH.RetryStates)
    (tid : String) (st0 : RH.RetryState) (e : RH.PyError) (t : ℚ) (j : ℕ)
    (hbd : 0 < cfg.base_delay)
    (hlen : st0.error_history.length = j)
    (hmax : st0.max_retries = cfg.max_retries) :
    (∃ st2, RH.get_retry_info (RH.shouldRetryCore cfg m tid st0 e t).1 tid = some st2 ∧
      st2.error_history.length = j + 1 ∧ st2.max_retries = cfg.max_retries) ∧
    (cfg.max_retries ≤ j + 1 → (RH.shouldRetryCore cfg m tid st0 e t).2 = (false, 0)) ∧
    (j + 1 < cfg.max_retries → (RH.shouldRetryCore cfg m tid st0 e t).2.1 = true ∧
      0 < (RH.shouldRetryCore cfg m tid st0 e t).2.2) := by
  obtain ⟨tidv, hist, nrt, strat, maxr⟩ := st0
  dsimp only at hlen hmax
  subst hmax
  unfold RH.shouldRetryCore
  dsimp only
  refine ⟨?_, ?_, ?_⟩
  · split
    · exact ⟨_, alistFind_insert m tid _, by simp [hlen], rfl⟩
    · exact ⟨_, alistFind_insert m tid _, by simp [hlen], rfl⟩
  · intro hle
    split
    · rfl
    · rename_i hcond
      exfalso
      simp only [List.length_append, List.length_cons, List.length_nil, hlen] at hcond
      omega
  · intro hlt
    split
    · rename_i hcond
      exfalso
      simp only [List.length_append, List.length_cons, List.length_nil, hlen] at hcond
      omega
    · refine ⟨rfl, ?_⟩
      rcases update_retry_strategy_of_concat
          ⟨tidv, hist ++ [{ RH.categorize_error e with timestamp := t }], nrt,
            strat, cfg.max_retries⟩ hist
          { RH.categorize_error e with timestamp := t } rfl with hs | hs
      · rw [RH.calculate_wait_time]
        dsimp only
        rw [hs]
        have hcast : (0 : ℚ) < ((hist ++
            [{ RH.categorize_error e with timestamp := t }] : List RH.ErrorInfo).length : ℚ) := by
          simp [hlen]
          positivity
        exact mul_pos hbd hcast
      · rw [RH.calculate_wait_time]
        dsimp only
        rw [hs]
        exact mul_pos hbd (pow_pos (by norm_num) _)

/-- The step property lifted to `should_retry`, with the task state either
absent (fresh task) or holding `j` errors. -/
theorem should_retry_step (cfg : RH.HandlerConfig) (tid : String)
    (e : RH.PyError) (t : ℚ) (m : RH.RetryStates) (j : ℕ)
    (hbd : 0 < cfg.base_delay)
    (hInv : (j = 0 ∧ RH.get_retry_info m tid = none) ∨
      (∃ st, RH.get_retry_info m tid = some st ∧ st.error_history.length = j ∧
        st.max_retries = cfg.max_retries)) :
    (∃ st2, RH.get_retry_info (RH.should_retry cfg m tid e t).1 tid = some st2 ∧
      st2.error_history.length = j + 1 ∧ st2.max_retries = cfg.max_retries) ∧
    (cfg.max_retries ≤ j + 1 → (RH.should_retry cfg m tid e t).2 = (false, 0)) ∧
    (j + 1 < cfg.max_retries → (RH.should_retry cfg m tid e t).2.1 = true ∧
      0 < (RH.should_retry cfg m tid e t).2.2) := by
  have h0 : (RH.get_or_create_state cfg m tid).error_history.length = j ∧
      (RH.get_or_create_state cfg m tid).max_retries = cfg.max_retries := by
    rcases hInv with ⟨hj, hnone⟩ | ⟨st, hsome, hlen, hmax⟩
    · have hfind : alistFind m tid = none := hnone
      rw [RH.get_or_create_state, hfind]
      exact ⟨by simp [hj], rfl⟩
    · have hfind : alistFind m tid = some st := hsome
      rw [RH.get_or_create_state, hfind]
      exact ⟨hlen, hmax⟩
  exact shouldRetryCore_step cfg m tid _ e t j hbd h0.1 h0.2

/-- Invariant of a sequence of `should_retry` calls for one task: the
`k`-th call (0-based, on top of `j` prior errors) answers `(False, 0)`
once `j + k + 1` reaches `max_retries` and `(True, wait > 0)` before
that, and the stored history grows by one per call. -/
theorem run_should_retry_spec (cfg : RH.HandlerConfig) (tid : String)
    (hbd : 0 < cfg.base_delay) :
    ∀ (calls : List (RH.PyError × ℚ)) (m : RH.RetryStates) (j : ℕ),
    ((j = 0 ∧ RH.get_retry_info m tid = none) ∨
      (∃ st, RH.get_retry_info m tid = some st ∧ st.error_history.length = j ∧
        st.max_retries = cfg.max_retries)) →
    (RH.run_should_retry cfg tid m calls).2.length = calls.length ∧
    (∀ k, k < calls.length →
      (cfg.max_retries ≤ j + k + 1 →
        (RH.run_should_retry cfg tid m calls).2.getD k (true, 1) = (false, 0)) ∧
      (j + k + 1 < cfg.max_retries →
        ((RH.run_should_retry cfg tid m calls).2.getD k (true, 1)).1 = true ∧
          0 < ((RH.run_should_retry cfg tid m calls).2.getD k (true, 1)).2)) ∧
    ((j + calls.length = 0 ∧
        RH.get_retry_info (RH.run_should_retry cfg tid m calls).1 tid = none) ∨
      (∃ st, RH.get_retry_info (RH.run_should_retry cfg tid m calls).1 tid = some st ∧
        st.error_history.length = j + calls.length ∧
        st.max_retries = cfg.max_retries)) := by
  intro calls
  induction calls with
  | nil =>
    intro m j hInv
    refine ⟨rfl, ?_, ?_⟩
    · intro k hk
      exact absurd hk (by simp)
    · simpa using hInv
  | cons c rest ih =>
    intro m j hInv
    have hstep := should_retry_step cfg tid c.1 c.2 m j hbd hInv
    have hih := ih (RH.should_retry cfg m tid c.1 c.2).1 (j + 1) (Or.inr hstep.1)
    simp only [RH.run_should_retry]
    refine ⟨?_, ?_, ?_⟩
    · simp [hih.1]
    · intro k hk
      cases k with
      | zero =>
        refine ⟨?_, ?_⟩
        · intro hle
          simpa using hstep.2.1 (by omega)
        · intro hlt
          have := hstep.2.2 (by omega)
          simpa using this
      | succ k2 =>
        have hk2 : k2 < rest.length := by
          simpa using Nat.lt_of_succ_lt_succ (by simpa using hk)
        refine ⟨?_, ?_⟩
        · intro hle
          have := (hih.2.1 k2 hk2).1 (by omega)
          simpa using this
        · intro hlt
          have := (hih.2.1 k2 hk2).2 (by omega)
          simpa using this
    · rcases hih.2.2 with ⟨h0, hn⟩ | ⟨st, hsome, hlen2, hmax2⟩
      · exact Or.inl ⟨by simp only [List.length_cons]; omega, by simpa using hn⟩
      · exact Or.inr ⟨st, by simpa using hsome,
          by simp only [List.length_cons]; omega, hmax2⟩

/-- Claim C3: a task reporting `max_retries` consecutive same-category
failures to `RetryHandler.should_retry` gets `(True, wait)` with
`wait > 0` on every call before the `max_retries`-th, `(False, 0)` on the
`max_retries`-th, and its retry state (holding all `max_retries` errors)
stays queryable via `get_retry_info` until `clear_retry_info` removes it
(for a positive `base_delay`; in the handler the per-category maximum is
the single configured `max_retries`). -/
theorem retry_ceiling (cfg : RH.HandlerConfig) (tid : String)
    (calls : List (RH.PyError × ℚ)) (cat : RH.ErrorCategory)
    (hmax : 1 ≤ cfg.max_retries) (hbd : 0 < cfg.base_delay)
    (hlen : calls.length = cfg.max_retries)
    (hcat : ∀ c ∈ calls, (RH.categorize_error c.1).category = cat) :
    (∀ k, k + 1 < calls.length →
      ((RH.run_should_retry cfg tid [] calls).2.getD k (true, 1)).1 = true ∧
        0 < ((RH.run_should_retry cfg tid [] calls).2.getD k (true, 1)).2) ∧
    (RH.run_should_retry cfg tid [] calls).2.getD (calls.length - 1) (true, 1) =
      (false, 0) ∧
    (∃ st, RH.get_retry_info (RH.run_should_retry cfg tid [] calls).1 tid = some st ∧
      st.error_history.length = cfg.max_retries) ∧
    RH.get_retry_info
      (RH.clear_retry_info (RH.run_should_retry cfg tid [] calls).1 tid) tid = none := by
  obtain ⟨hlenout, houts, hinv⟩ :=
    run_should_retry_spec cfg tid hbd calls [] 0 (Or.inl ⟨rfl, rfl⟩)
  refine ⟨?_, ?_, ?_, ?_⟩
  · intro k hk
    exact (houts k (by omega)).2 (by omega)
  · exact (houts (calls.length - 1) (by omega)).1 (by omega)
  · rcases hinv with ⟨h0, _⟩ | ⟨st, hsome, hlen2, _⟩
    · omega
    · exact ⟨st, hsome, by omega⟩
  · exact alistFind_pop _ tid

/-- Witness for claim C3: two identical network failures against a
two-retry configuration. -/
theorem retry_ceiling_witness :
    (∀ k, k + 1 < c3calls.length →
      ((RH.run_should_retry c3cfg "t" [] c3calls).2.getD k (true, 1)).1 = true ∧
        0 < ((RH.run_should_retry c3cfg "t" [] c3calls).2.getD k (true, 1)).2) ∧
    (RH.run_should_retry c3cfg "t" [] c3calls).2.getD (c3calls.length - 1)
      (true, 1) = (false, 0) ∧
    (∃ st, RH.get_retry_info (RH.run_should_retry c3cfg "t" [] c3calls).1 "t" =
      some st ∧ st.error_history.length = c3cfg.max_retries) ∧
    RH.get_retry_info (RH.clear_retry_info
      (RH.run_should_retry c3cfg "t" [] c3calls).1 "t") "t" = none :=
  retry_ceiling c3cfg "t" c3calls RH.ErrorCategory.network
    (by decide) (by decide) (by decide) (by decide)

/-! ## Claim C2 -/

/-- The boundary scan only answers positions inside `[i, i + remaining]`. -/
theorem boundaryScanGo_bounds (lines : List Doc) :
    ∀ remaining i v, boundaryScanGo lines i remaining = some v →
      i ≤ v ∧ v ≤ i + remaining := by
  intro remaining
  induction remaining with
  | zero =>
    intro i v hv
    exact absurd hv (by simp [boundaryScanGo])
  | succ remaining ih =>
    intro i v hv
    rw [boundaryScanGo] at hv
    by_cases hblank : isBlankLine (lineAt lines i)
    · rw [if_pos hblank] at hv
      have : v = i + 1 := by simpa using hv.symm
      omega
    · rw [if_neg hblank] at hv
      by_cases hind : 0 < i ∧
          get_indent_level (lineAt lines i) < get_indent_level (lineAt lines (i - 1))
      · rw [if_pos hind] at hv
        have : v = i := by simpa using hv.symm
        omega
      · rw [if_neg hind] at hv
        have := ih (i + 1) v hv
        omega

/-- The boundary scan only answers positions inside `[i, stop]`. -/
theorem boundaryScan_bounds (lines : List Doc) (i stop v : ℕ) (hi : i ≤ stop)
    (hv : boundaryScan lines i stop = some v) : i ≤ v ∧ v ≤ stop := by
  have := boundaryScanGo_bounds lines (stop - i) i v hv
  omega

/-- `_find_chunk_boundary` never moves a boundary backwards and never
past the end of the document. -/
theorem find_chunk_boundary_bounds (lines : List Doc) (e : ℕ)
    (he : e ≤ lines.length) :
    e ≤ find_chunk_boundary lines e ∧ find_chunk_boundary lines e ≤ lines.length := by
  unfold find_chunk_boundary
  by_cases h : lines.length ≤ e
  · rw [if_pos h]
    omega
  · rw [if_neg h]
    cases hscan : boundaryScan lines e (min (e + 10) lines.length) with
    | none => simp; omega
    | some v =>
      have := boundaryScan_bounds lines e (min (e + 10) lines.length) v
        (by omega) hscan
      simp
      omega

/-- The split loop stops at the end of the document. -/
theorem splitLoop_eq_nil (lines : List Doc) (size fuel idx cur : ℕ)
    (h : ¬ cur < lines.length) : splitLoop lines size fuel idx cur = [] := by
  cases fuel with
  | zero => rfl
  | succ f2 => simp [splitLoop, h]

/-- Invariant of the split loop from line `cur` (0-based) with enough
fuel: chunk indices continue consecutively from `idx`; the 1-based
`[start_line, end_line]` ranges concatenate, in order, to exactly the
lines `cur+1 .. total`; and each chunk covers a non-empty slice
`lines[s:e]` whose `"\n"`-join is its content. -/
theorem splitLoop_spec (lines : List Doc) (size : ℕ) (hs : 1 ≤ size) :
    ∀ fuel cur idx, lines.length ≤ cur + fuel → cur < lines.length →
    ((splitLoop lines size fuel idx cur).map ChunkInfo.index =
      List.range' idx (splitLoop lines size fuel idx cur).length) ∧
    (((splitLoop lines size fuel idx cur).map
        (fun c => List.range' c.start_line (c.end_line + 1 - c.start_line))).flatten =
      List.range' (cur + 1) (lines.length - cur)) ∧
    (∀ c ∈ splitLoop lines size fuel idx cur, ∃ s e2, c.start_line = s + 1 ∧
      c.end_line = e2 ∧ s < e2 ∧ e2 ≤ lines.length ∧
      c.content = joinN (sliceLines lines s e2)) := by
  intro fuel
  induction fuel with
  | zero =>
    intro cur idx hfuel hcur
    omega
  | succ fuel ih =>
    intro cur idx hfuel hcur
    have hb := find_chunk_boundary_bounds lines (min (cur + size) lines.length)
      (by omega)
    have hcur_lt : cur < find_chunk_boundary lines (min (cur + size) lines.length) := by
      omega
    have he2le : find_chunk_boundary lines (min (cur + size) lines.length) ≤
        lines.length := hb.2
    simp only [splitLoop, if_pos hcur]
    by_cases hend : find_chunk_boundary lines (min (cur + size) lines.length) <
        lines.length
    · have hrec := ih (find_chunk_boundary lines (min (cur + size) lines.length))
        (idx + 1) (by omega) hend
      refine ⟨?_, ?_, ?_⟩
      · simp only [List.map_cons, List.length_cons, List.range'_succ]
        rw [hrec.1]
      · simp only [List.map_cons, List.flatten_cons]
        rw [hrec.2.1]
        have h1 : find_chunk_boundary lines (min (cur + size) lines.length) + 1 -
            (cur + 1) = find_chunk_boundary lines (min (cur + size) lines.length) -
            cur := by omega
        rw [h1]
        have h2 : find_chunk_boundary lines (min (cur + size) lines.length) + 1 =
            (cur + 1) + (find_chunk_boundary lines (min (cur + size) lines.length) -
              cur) := by omega
        rw [h2, List.range'_append_1]
        congr 1
        omega
      · intro c hc
        rcases List.mem_cons.mp hc with hhead | htail
        · exact ⟨cur, find_chunk_boundary lines (min (cur + size) lines.length),
            by rw [hhead], by rw [hhead], hcur_lt, he2le, by rw [hhead]⟩
        · exact hrec.2.2 c htail
    · have htail : splitLoop lines size fuel (idx + 1)
          (find_chunk_boundary lines (min (cur + size) lines.length)) = [] :=
        splitLoop_eq_nil lines size fuel (idx + 1) _ hend
      rw [htail]
      have he2eq : find_chunk_boundary lines (min (cur + size) lines.length) =
          lines.length := by omega
      refine ⟨by simp, ?_, ?_⟩
      · simp only [List.map_cons, List.map_nil, List.flatten_cons, List.flatten_nil,
          List.append_nil]
        rw [he2eq]
        congr 1
        omega
      · intro c hc
        rcases List.mem_cons.mp hc with hhead | htail2
        · exact ⟨cur, find_chunk_boundary lines (min (cur + size) lines.length),
            by rw [hhead], by rw [hhead], hcur_lt, he2le, by rw [hhead]⟩
        · exact absurd htail2 (List.not_mem_nil c)

/-- Claim C2: for every document and `chunk_size ≥ 1`, `split_text`
returns chunks with consecutive 0-based indices, and the 1-based
inclusive `[start_line, end_line]` ranges, taken in index order,
concatenate to exactly `[1 .. total_lines]` — contiguous,
non-overlapping, covering every line exactly once. -/
theorem split_text_coverage (size : ℕ) (D : Doc) (hs : 1 ≤ size) :
    (split_text size D).map ChunkInfo.index =
      List.range (split_text size D).length ∧
    ((split_text size D).map
      (fun c => List.range' c.start_line (c.end_line + 1 - c.start_line))).flatten =
      List.range' 1 (splitlines D).length := by
  unfold split_text
  by_cases h : (splitlines D).length ≤ size
  · rw [if_pos h]
    refine ⟨rfl, ?_⟩
    simp
  · rw [if_neg h]
    have h0 : 0 < (splitlines D).length := by omega
    have hspec := splitLoop_spec (splitlines D) size hs (splitlines D).length 0 0
      (by omega) h0
    refine ⟨?_, ?_⟩
    · rw [hspec.1, List.range_eq_range']
    · have := hspec.2.1
      simpa using this

/-- Witness for claim C2 on a three-line document split in chunks of two
lines. -/
theorem split_text_coverage_witness :
    (split_text 2 "a: 1\nb: 2\nc: 3".toList).map ChunkInfo.index =
      List.range (split_text 2 "a: 1\nb: 2\nc: 3".toList).length ∧
    ((split_text 2 "a: 1\nb: 2\nc: 3".toList).map
      (fun c => List.range' c.start_line (c.end_line + 1 - c.start_line))).flatten =
      List.range' 1 (splitlines "a: 1\nb: 2\nc: 3".toList).length :=
  split_text_coverage 2 _ (by decide)

/-! ## Claim C1 -/

/-- A non-terminator character is appended to the current line buffer. -/
theorem splitlinesGo_cons_notTerm (c : Char) (cs buf : List Char)
    (hc : isLineTermChar c = false) :
    splitlinesGo (c :: cs) buf false = splitlinesGo cs (buf ++ [c]) false := by
  have hcr : ¬ c = '\r' := by
    intro h
    subst h
    exact absurd hc (by decide)
  simp [splitlinesGo, hc, hcr]

/-- A `\n` outside a `\r\n` pair ends the current line. -/
theorem splitlinesGo_cons_newline (cs buf : List Char) :
    splitlinesGo ('\n' :: cs) buf false = buf :: splitlinesGo cs [] false := by
  have h1 : isLineTermChar '\n' = true := by decide
  simp [splitlinesGo, h1]

/-- Scanning terminator-free input yields the single accumulated line
(or nothing when it is empty). -/
theorem splitlinesGo_clean_run (l : List Char) :
    ∀ buf, (∀ c ∈ l, isLineTermChar c = false) →
    splitlinesGo l buf false = if (buf ++ l).isEmpty then [] else [buf ++ l] := by
  induction l with
  | nil =>
    intro buf _
    simp [splitlinesGo]
  | cons c cs ih =>
    intro buf hclean
    rw [splitlinesGo_cons_notTerm c cs buf (hclean c (List.mem_cons_self c cs))]
    rw [ih (buf ++ [c]) (fun x hx => hclean x (List.mem_cons_of_mem c hx))]
    simp

/-- Scanning `l ++ "\n" ++ rest` for terminator-free `l` emits `l` and
continues with `rest`. -/
theorem splitlinesGo_append_newline (l : List Char) :
    ∀ rest buf, (∀ c ∈ l, isLineTermChar c = false) →
    splitlinesGo (l ++ '\n' :: rest) buf false =
      (buf ++ l) :: splitlinesGo rest [] false := by
  induction l with
  | nil =>
    intro rest buf _
    simp only [List.nil_append, List.append_nil]
    exact splitlinesGo_cons_newline rest buf
  | cons c cs ih =>
    intro rest buf hclean
    rw [List.cons_append,
      splitlinesGo_cons_notTerm c _ buf (hclean c (List.mem_cons_self c cs))]
    rw [ih rest (buf ++ [c]) (fun x hx => hclean x (List.mem_cons_of_mem c hx))]
    simp

/-- `splitlines` is a left inverse of `"\n".join` on line lists whose
lines are terminator-free and whose last line is non-empty. -/
theorem splitlines_joinN : ∀ ls : List Doc,
    (∀ l ∈ ls, ∀ c ∈ l, isLineTermChar c = false) →
    (∀ x, ls.getLast? = some x → x ≠ []) →
    splitlines (joinN ls) = ls := by
  intro ls
  induction ls with
  | nil => intro _ _; rfl
  | cons l ls ih =>
    intro hclean hlast
    cases ls with
    | nil =>
      show splitlines l = [l]
      have hl : l ≠ [] := hlast l (by simp)
      unfold splitlines
      rw [splitlinesGo_clean_run l [] (hclean l (by simp))]
      rw [if_neg (by simpa using hl)]
      simp
    | cons l2 ls2 =>
      show splitlines (l ++ '\n' :: joinN (l2 :: ls2)) = l :: l2 :: ls2
      unfold splitlines
      rw [splitlinesGo_append_newline l _ [] (hclean l (by simp))]
      simp only [List.nil_append]
      congr 1
      exact ih (fun x hx => hclean x (List.mem_cons_of_mem l hx))
        (fun x hx => hlast x (by rw [List.getLast?_cons_cons]; exact hx))

/-- Every line produced by the scanner is terminator-free (given a
terminator-free buffer). -/
theorem splitlinesGo_clean (d : List Char) :
    ∀ buf flag, (∀ c ∈ buf, isLineTermChar c = false) →
    ∀ l ∈ splitlinesGo d buf flag, ∀ c ∈ l, isLineTermChar c = false := by
  induction d with
  | nil =>
    intro buf flag hbuf l hl
    rw [splitlinesGo] at hl
    by_cases hb : buf.isEmpty
    · rw [if_pos hb] at hl
      exact absurd hl (List.not_mem_nil l)
    · rw [if_neg hb] at hl
      have : l = buf := by simpa using hl
      subst this
      exact hbuf
  | cons c cs ih =>
    intro buf flag hbuf l hl
    rw [splitlinesGo] at hl
    by_cases hskip : (flag && c == '\n') = true
    · rw [if_pos hskip] at hl
      exact ih buf false hbuf l hl
    · rw [if_neg hskip] at hl
      by_cases hcr : c = '\r'
      · rw [if_pos hcr] at hl
        rcases List.mem_cons.mp hl with hlb | hlt
        · subst hlb; exact hbuf
        · exact ih [] true (by intro x hx; exact absurd hx (List.not_mem_nil x)) l hlt
      · rw [if_neg hcr] at hl
        by_cases ht : isLineTermChar c = true
        · rw [if_pos ht] at hl
          rcases List.mem_cons.mp hl with hlb | hlt
          · subst hlb; exact hbuf
          · exact ih [] false (by intro x hx; exact absurd hx (List.not_mem_nil x)) l hlt
        · rw [if_neg ht] at hl
          refine ih (buf ++ [c]) false ?_ l hl
          intro x hx
          rcases List.mem_append.mp hx with hxb | hxc
          · exact hbuf x hxb
          · have : x = c := by simpa using hxc
            subst this
            simpa using ht

/-- Every line of `splitlines d` is terminator-free. -/
theorem splitlines_clean (d : Doc) :
    ∀ l ∈ splitlines d, ∀ c ∈ l, isLineTermChar c = false :=
  splitlinesGo_clean d [] false (by intro x hx; exact absurd hx (List.not_mem_nil x))

/-- Lines of a slice are lines of the document. -/
theorem mem_sliceLines {x : Doc} {l : List Doc} {s e : ℕ}
    (h : x ∈ sliceLines l s e) : x ∈ l :=
  List.take_subset e l (List.drop_subset s (l.take e) h)

/-- The last line of a non-empty slice `lines[s:e]` is line `e - 1`. -/
theorem getLast?_sliceLines (l : List Doc) (s e : ℕ) (h1 : s < e)
    (h2 : e ≤ l.length) :
    (sliceLines l s e).getLast? = some (lineAt l (e - 1)) := by
  have hlen : (sliceLines l s e).length = e - s := by
    simp [sliceLines, List.length_drop, List.length_take]
    omega
  rw [List.getLast?_eq_getElem?, hlen]
  show (sliceLines l s e)[e - s - 1]? = _
  rw [sliceLines, List.getElem?_drop]
  have harith : s + (e - s - 1) = e - 1 := by omega
  rw [harith]
  rw [List.getElem?_take_of_lt (by omega)]
  have hlt : e - 1 < l.length := by omega
  rw [List.getElem?_eq_getElem hlt]
  show _ = some (l.getD (e - 1) [])
  rw [List.getD_eq_getElem?_getD, List.getElem?_eq_getElem hlt]
  rfl

/-- Assigning a slice back to its own range leaves the list unchanged. -/
theorem sliceAssign_slice {α : Type} (l : List α) (s e : ℕ) (h1 : s ≤ e)
    (h2 : e ≤ l.length) :
    sliceAssign l s e ((l.take e).drop s) = l := by
  unfold sliceAssign
  have hs : min s l.length = s := min_eq_left (le_trans h1 h2)
  have he : min e l.length = e := min_eq_left h2
  rw [hs, he]
  simp only [max_eq_right h1]
  have key : l.take s ++ (l.take e).drop s = l.take e := by
    conv_rhs => rw [← List.take_append_drop s (l.take e)]
    congr 1
    rw [List.take_take]
    congr 1
    omega
  rw [key, List.take_append_drop]

/-- The merge loop, fed each chunk's own content, rewrites every range
with itself: the document's lines are unchanged. -/
theorem merge_fold_identity (lines : List Doc)
    (hclean : ∀ l ∈ lines, ∀ c ∈ l, isLineTermChar c = false) :
    ∀ cs : List ChunkInfo,
    (∀ c ∈ cs, ∃ s e2, c.start_line = s + 1 ∧ c.end_line = e2 ∧ s < e2 ∧
      e2 ≤ lines.length ∧ c.content = joinN (sliceLines lines s e2)) →
    (∀ c ∈ cs, lineAt lines (c.end_line - 1) ≠ []) →
    ((identityResults cs).zip cs).foldl
      (fun ls p => sliceAssign ls (p.2.start_line - 1) p.2.end_line
        (splitlines p.1.content)) lines = lines := by
  intro cs
  induction cs with
  | nil => intro _ _; rfl
  | cons c cs ih =>
    intro hprops hlast
    obtain ⟨s, e2, hstart, hend, hse, helen, hcontent⟩ :=
      hprops c (List.mem_cons_self c cs)
    show ((identityResults cs).zip cs).foldl _
      (sliceAssign lines (c.start_line - 1) c.end_line (splitlines c.content)) =
      lines
    have hstep : sliceAssign lines (c.start_line - 1) c.end_line
        (splitlines c.content) = lines := by
      rw [hcontent, hstart, hend]
      have hsimp : s + 1 - 1 = s := by omega
      rw [hsimp]
      rw [splitlines_joinN (sliceLines lines s e2)
        (fun l hl c2 hc2 => hclean l (mem_sliceLines hl) c2 hc2) ?hla]
      · exact sliceAssign_slice lines s e2 (le_of_lt hse) helen
      case hla =>
        intro x hx
        rw [getLast?_sliceLines lines s e2 hse helen] at hx
        have hxeq : x = lineAt lines (e2 - 1) := by
          have := hx
          simp at this
          exact this.symm
        subst hxeq
        have hl2 := hlast c (List.mem_cons_self c cs)
        rw [hend] at hl2
        exact hl2
    rw [hstep]
    exact ih (fun x hx => hprops x (List.mem_cons_of_mem c hx))
      (fun x hx => hlast x (List.mem_cons_of_mem c hx))

/-- Claim C1 as amended: for `chunk_size ≥ 1` and a document equal to
the `"\n"`-join of its `splitlines` (sole `\n` terminators, no trailing
newline), if additionally no chunk produced by `split_text` ends on an
empty line, then merging the identity results reproduces the document
exactly. -/
theorem split_merge_roundtrip (size : ℕ) (D : Doc) (hs : 1 ≤ size)
    (hD : joinN (splitlines D) = D)
    (hlast : ∀ c ∈ split_text size D, c.end_line ≠ 0 →
      lineAt (splitlines D) (c.end_line - 1) ≠ []) :
    merge_results D (identityResults (split_text size D)) (split_text size D) =
      Except.ok D := by
  have hclean := splitlines_clean D
  have main : ∀ cs : List ChunkInfo,
      cs.Pairwise (fun a b => a.index < b.index) →
      ((identityResults cs).zip cs).foldl
        (fun ls p => sliceAssign ls (p.2.start_line - 1) p.2.end_line
          (splitlines p.1.content)) (splitlines D) = splitlines D →
      merge_results D (identityResults cs) cs = Except.ok D := by
    intro cs hpw hfold
    have hpwres : (identityResults cs).Pairwise
        (fun a b => ChunkResult.index a < ChunkResult.index b) := by
      unfold identityResults
      rw [List.pairwise_map]
      simpa using hpw
    have hsortc : sortByKey ChunkInfo.index cs = cs :=
      sortByKey_eq_self ChunkInfo.index cs hpw
    have hsortr : sortByKey ChunkResult.index (identityResults cs) =
        identityResults cs :=
      sortByKey_eq_self ChunkResult.index (identityResults cs) hpwres
    have hlen : (identityResults cs).length = cs.length := by
      simp [identityResults]
    have hfail : (identityResults cs).filter (fun r => !r.success) = [] := by
      rw [List.filter_eq_nil_iff]
      intro a ha
      unfold identityResults at ha
      obtain ⟨c, _, hac⟩ := List.mem_map.mp ha
      subst hac
      simp
    unfold merge_results
    rw [if_neg (by rw [hlen]; exact fun hne => hne rfl)]
    simp only [hsortr, hsortc, hfail, List.isEmpty_nil, Bool.not_true,
      Bool.false_eq_true, if_false]
    rw [hfold, hD]
  by_cases h : (splitlines D).length ≤ size
  · have hcs : split_text size D =
        [{ index := 0, start_line := 1, end_line := (splitlines D).length,
           content := D, context := none, level := 0, is_complete := true }] := by
      unfold split_text
      rw [if_pos h]
    rw [hcs]
    refine main _ (List.pairwise_singleton _ _) ?_
    show sliceAssign (splitlines D) (1 - 1) (splitlines D).length (splitlines D) =
      splitlines D
    simp [sliceAssign]
  · have hcs : split_text size D =
        splitLoop (splitlines D) size (splitlines D).length 0 0 := by
      unfold split_text
      rw [if_neg h]
    rw [hcs] at hlast ⊢
    have h0 : 0 < (splitlines D).length := by omega
    have hspec := splitLoop_spec (splitlines D) size hs (splitlines D).length 0 0
      (by omega) h0
    refine main _ ?_ ?_
    · have hmap : ((splitLoop (splitlines D) size (splitlines D).length 0 0).map
          ChunkInfo.index).Pairwise (fun a b => a < b) := by
        rw [hspec.1]
        exact List.pairwise_lt_range' 0 _
      exact List.pairwise_map.mp hmap
    · refine merge_fold_identity (splitlines D) hclean _ hspec.2.2 ?_
      intro c hc
      obtain ⟨s, e2, _, hend, hse, _, _⟩ := hspec.2.2 c hc
      exact hlast c hc (by omega)

/-- Claim C1 counterexample: for `D = "a\n"` and `maxChunkSize = 1`,
every chunk result succeeds with content equal to the chunk's original
content, yet `merge_results` returns `"a" ≠ D`: the trailing newline is
lost, refuting the round-trip as stated. -/
theorem split_merge_roundtrip_cex :
    split_text 1 "a\n".toList =
      [{ index := 0, start_line := 1, end_line := 1, content := "a\n".toList,
         context := none, level := 0, is_complete := true }] ∧
    merge_results "a\n".toList (identityResults (split_text 1 "a\n".toList))
      (split_text 1 "a\n".toList) = Except.ok "a".toList ∧
    "a".toList ≠ "a\n".toList := by
  refine ⟨by decide, ?_, by decide⟩
  rfl

/-- Witness for the amended claim C1 on a two-line document split into
single-line chunks. -/
theorem split_merge_roundtrip_witness :
    merge_results "key: value\nother: x".toList
      (identityResults (split_text 1 "key: value\nother: x".toList))
      (split_text 1 "key: value\nother: x".toList) =
      Except.ok "key: value\nother: x".toList :=
  split_merge_roundtrip 1 _ (by decide) (by decide) (by decide)
